import Mathlib

/-!
# Verification of the 2048 grid engine

A shallow embedding, in Lean 4, of the deterministic core of a 2048-style
game (grid data model, pairing/merge resolution, terminal-state detection,
spawn handling and the animation-completion aggregator), together with
theorems settling the specification claims about that core.

Conventions of the embedding:

* JavaScript array indexing `a[i]` (which yields `undefined` out of range,
  including for negative indices) is modelled by `listGet?` returning
  `Option`; `none` models `undefined`.
* Object identity of blocks is modelled by structural equality: every block
  carried by a live grid has a distinct `id` (a uuid in the source), so two
  blocks are the same object exactly when they are equal as values.
* Mutation is modelled by explicit state passing; where aliasing itself is
  the property under study (the clone/mutate interplay of `cloneGrid` and
  `setBlockAt`), a second, reference-level model (`GridObj` with a store of
  cell objects) makes the sharing explicit.
* `Math.random()` is modelled as a rational parameter `rand` in `[0, 1)`.
-/

/-- A numbered tile. `id` stands for the uuid generated by `uuidv4()` in
`makeNewBlock`; freshness of ids is supplied by callers of the model. -/
structure Block where
  id : Nat
  value : Nat
  isNew : Bool
deriving DecidableEq

/-- One board position: an optional block plus the transient block absorbed
by a merge in the last resolution. -/
structure Cell where
  block : Option Block
  mergedBlock : Option Block
deriving DecidableEq

abbrev GridRow := List Cell

abbrev GridColumn := List Cell

/-- The board: `rows` is addressed `rows[y][x]`. -/
structure Grid where
  size : Nat
  rows : List (List Cell)
deriving DecidableEq

/-- A 2-vector; used both for positions and for direction vectors, hence
integer components (directions use `-1`). -/
structure Vector where
  x : Int
  y : Int
deriving DecidableEq

/-- The phases of the turn state machine (`types.ts`). -/
inductive Phase where
  | INIT | INPUT | ACTIVE | TEST_WON | WON | SPAWN | TEST_GAME_OVER | GAME_OVER
deriving DecidableEq

/-- JavaScript array read `l[i]`: `none` models `undefined` (negative or
too-large index). -/
def listGet? (l : List α) (i : Int) : Option α :=
  if 0 ≤ i then l.get? i.toNat else none

/-- JavaScript array write `l[i] = a` for an index already inside the array;
out-of-range writes leave the list unchanged (the sparse-array extension JS
would perform is not representable and is never reached on well-formed
grids). -/
def listSet (l : List α) (i : Int) (a : α) : List α :=
  if 0 ≤ i then l.set i.toNat a else l

/-- In-place update of the element at an index, if present. -/
def listModify (l : List α) (i : Int) (f : α → α) : List α :=
  match listGet? l i with
  | none => l
  | some a => listSet l i (f a)

/-- `makeEmptyCell` from gridUtils.ts. -/
def makeEmptyCell : Cell :=
  { block := none, mergedBlock := none }

/-- `makeNewBlock` from gridUtils.ts; the uuid is modelled by the
caller-supplied `id`. -/
def makeNewBlock (id : Nat) (value : Nat := 1) : Block :=
  { id := id, value := value, isNew := true }

/-- `makeEmptyGrid` from gridUtils.ts. -/
def makeEmptyGrid (size : Nat) : Grid :=
  { size := size
    rows := (List.range size).map fun _ => (List.range size).map fun _ => makeEmptyCell }

/-- `cloneGrid` from gridUtils.ts: a new rows array holding a copy
(`row.slice()`) of each row. In this value-level model the copy is the
identity; the reference-level model below (`cloneGridObj`) records that the
cell objects themselves are shared, not copied. -/
def cloneGrid (grid : Grid) : Grid :=
  { size := grid.size, rows := grid.rows.map fun row => row }

/-- `getCellAt` from gridUtils.ts: the bare double index
`grid.rows[position.y][position.x]`, with no bounds check against `size`.
`none` models the JS result being `undefined` (x out of range) or the
TypeError of indexing an `undefined` row (y out of range). -/
def getCellAt (position : Vector) (grid : Grid) : Option Cell :=
  (listGet? grid.rows position.y).bind fun row => listGet? row position.x

/-- `setCellAt` from gridUtils.ts: `grid.rows[position.y][position.x] = cell`
(mutation, modelled by returning the updated grid). -/
def setCellAt (position : Vector) (cell : Cell) (grid : Grid) : Grid :=
  { grid with rows := listModify grid.rows position.y fun row => listSet row position.x cell }

/-- `setBlockAt` from gridUtils.ts:
`grid.rows[position.y][position.x].block = block` — note it mutates the
`block` field of the existing cell object. -/
def setBlockAt (position : Vector) (block : Option Block) (grid : Grid) : Grid :=
  { grid with
    rows := listModify grid.rows position.y fun row =>
      listModify row position.x fun cell => { cell with block := block } }

/-- `pluckBlocks` from gridUtils.ts. -/
def pluckBlocks (cells : List Cell) : List (Option Block) :=
  cells.map fun cell => cell.block

/-- `getColumnAt` from gridUtils.ts: `grid.rows.map(row => row[x])`. A
malformed (short) row would contribute `undefined`; that unreachable case is
modelled as an empty cell. -/
def getColumnAt (x : Int) (grid : Grid) : GridColumn :=
  grid.rows.map fun row => (listGet? row x).getD makeEmptyCell

/-- `setColumnAt` from gridUtils.ts:
`column.forEach((cell, y) => grid.rows[y][x] = cell)`. -/
def setColumnAt (x : Int) (column : GridColumn) (grid : Grid) : Grid :=
  column.enum.foldl
    (fun g p =>
      { g with rows := listModify g.rows (p.1 : Int) fun row => listSet row x p.2 })
    grid

/-- `getRowAt` from gridUtils.ts: `grid.rows[y]`; `undefined` (bad `y`) is
modelled as the empty row. -/
def getRowAt (y : Int) (grid : Grid) : GridRow :=
  (listGet? grid.rows y).getD []

/-- `setRowAt` from gridUtils.ts: `grid.rows[y] = row`. -/
def setRowAt (y : Int) (row : GridRow) (grid : Grid) : Grid :=
  { grid with rows := listSet grid.rows y row }

/-- The order in which `iterateCells` visits positions: the outer loop runs
over `x`, the inner loop over `y` (gridUtils.ts lines 99-100). -/
def cellIterationOrder (size : Nat) : List Vector :=
  (List.range size).flatMap fun x => (List.range size).map fun y => ⟨x, y⟩

/-- The loop body of `iterateCells`: the iterator receives the (possibly
`undefined`) cell and the position, and returns the updated folded state
plus a continue flag (`false` from the source iterator breaks the loop). -/
def iterGo (grid : Grid) (iterator : σ → Option Cell → Vector → σ × Bool) :
    σ → List Vector → σ
  | s, [] => s
  | s, p :: rest =>
    let r := iterator s (getCellAt p grid) p
    if r.2 then iterGo grid iterator r.1 rest else r.1

/-- `iterateCells` from gridUtils.ts, with the closed-over mutable state of
the source iterators made explicit. -/
def iterateCells (grid : Grid) (iterator : σ → Option Cell → Vector → σ × Bool)
    (init : σ) : σ :=
  iterGo grid iterator init (cellIterationOrder grid.size)

/-- `updateCells` from gridUtils.ts: replaces every cell by
`updateCell cell position` via `setCellAt`. The unreachable `undefined`-cell
case leaves the grid untouched for that position. -/
def updateCells (grid : Grid) (updateCell : Cell → Vector → Cell) : Grid :=
  iterateCells grid
    (fun g cell position =>
      match cell with
      | some c => (setCellAt position (updateCell c position) g, true)
      | none => (g, true))
    grid

/-- `findEmptyCellPositions` from gridUtils.ts. -/
def findEmptyCellPositions (grid : Grid) : List Vector :=
  iterateCells grid
    (fun result cell position =>
      match cell with
      | some c => (if c.block = none then result ++ [position] else result, true)
      | none => (result, true))
    []

/-- `hasNewCell` from gridUtils.ts: `cell.block?.isNew` sets the flag. -/
def hasNewCell (grid : Grid) : Bool :=
  iterateCells grid
    (fun result cell _ =>
      (result || ((cell.bind Cell.block).map Block.isNew).getD false, true))
    false

/-- The result record of `findBlockPairs`. -/
structure FindBlockPairsResult where
  hasBlockPairs : Bool
  blockPairs : List (List Block)
deriving DecidableEq

/-- `addToBlockPairs` from `findBlockPairs`: `unshift` for direction `1`,
`push` otherwise, keeping groups in original line order. -/
def addToBlockPairs (direction : Int) (blockPair : List Block)
    (blockPairs : List (List Block)) : List (List Block) :=
  if direction = 1 then blockPair :: blockPairs else blockPairs ++ [blockPair]

/-- One iteration of the `findBlockPairs` loop at counter `i`; the state is
the pair `(blockPairs, pairedBlocks)`. -/
def fbpStep (direction : Int) (blocks : List Block)
    (st : List (List Block) × List Block) (i : Nat) :
    List (List Block) × List Block :=
  let index : Int := if direction = 1 then (blocks.length : Int) - i - 1 else (i : Int)
  let lastIndex : Int := index + direction
  let block := listGet? blocks index
  let lastBlock := listGet? blocks lastIndex
  match lastBlock with
  | none => st
  | some lb =>
    if lb ∈ st.2 then st
    else
      match block with
      | some b =>
        if b.value = lb.value then
          let pair := if direction = 1 then [lb, b] else [b, lb]
          (addToBlockPairs direction pair st.1, st.2 ++ [b, lb])
        else
          (addToBlockPairs direction [lb] st.1, st.2)
      | none =>
        (addToBlockPairs direction [lb] st.1, st.2)

/-- The `for (let i = 0; i <= blocks.length; ++i)` loop of `findBlockPairs`,
run with explicit fuel (the loop executes `blocks.length + 1` iterations). -/
def fbpGo (direction : Int) (blocks : List Block) :
    Nat → Nat → List (List Block) × List Block → List (List Block) × List Block
  | _, 0, st => st
  | i, fuel + 1, st => fbpGo direction blocks (i + 1) fuel (fbpStep direction blocks st i)

/-- `findBlockPairs` from gridUtils.ts. -/
def findBlockPairs (direction : Int) (blocks : List Block) : FindBlockPairsResult :=
  let st := fbpGo direction blocks 0 (blocks.length + 1) ([], [])
  { hasBlockPairs := !st.2.isEmpty, blockPairs := st.1 }

/-- `Array.prototype.map` with the element index, as used by
`resolveColumnOrRowInDirection`. -/
def jsMapIdx (f : Nat → α → β) : Nat → List α → List β
  | _, [] => []
  | i, a :: l => f i a :: jsMapIdx f (i + 1) l

/-- The compacted blocks of a line: `pluckBlocks(cells).filter(b => b !== null)`. -/
def lineBlocks (cells : List Cell) : List Block :=
  (pluckBlocks cells).filterMap id

/-- `resolveColumnOrRowInDirection` from gridUtils.ts. The spread
`{...cell, block: …, mergedBlock: …}` overwrites both fields of `Cell`, so
each produced cell is written out in full. The `?? [null]` fallback (and a
negative `blockPairIndex`, which also reads `undefined`) is the `none` case
of the group lookup and clears the cell. A group can only have one or two
members; the impossible shapes in the final match (the empty group, and the
one-member group already taken by the length-1 branch) are mapped to a
cleared cell. -/
def resolveColumnOrRowInDirection (direction : Int) (cells : List Cell) : List Cell :=
  let blocksWithValues := lineBlocks cells
  if blocksWithValues.isEmpty then cells
  else
    let blockPairs := (findBlockPairs direction blocksWithValues).blockPairs
    let cellCount : Int := blockPairs.length
    jsMapIdx
      (fun index _cell =>
        let blockPairIndex : Int :=
          if direction = 1 then cellCount - cells.length + index else (index : Int)
        match listGet? blockPairs blockPairIndex with
        | none => { block := none, mergedBlock := none }
        | some cellBlockPairs =>
          if cellBlockPairs.length = 1 then
            { block := listGet? cellBlockPairs 0, mergedBlock := none }
          else
            match (if direction = 1 then cellBlockPairs.reverse else cellBlockPairs) with
            | baseBlock :: blockToMerge :: _ =>
              { block := some { baseBlock with value := baseBlock.value + blockToMerge.value }
                mergedBlock := some blockToMerge }
            | [] => { block := none, mergedBlock := none }
            | [_] => { block := none, mergedBlock := none })
      0 cells

/-- `resolveCellsInDirection` from gridUtils.ts; the `throw` of the final
branch is an `Except.error`. -/
def resolveCellsInDirection (direction : Vector) (grid : Grid) : Except String Grid :=
  let nextGrid := cloneGrid grid
  if direction.x = 0 then
    Except.ok <|
      (List.range nextGrid.size).foldl
        (fun g x =>
          setColumnAt (x : Int)
            (resolveColumnOrRowInDirection direction.y (getColumnAt (x : Int) g)) g)
        nextGrid
  else if direction.y = 0 then
    Except.ok <|
      (List.range nextGrid.size).foldl
        (fun g y =>
          setRowAt (y : Int)
            (resolveColumnOrRowInDirection direction.x (getRowAt (y : Int) g)) g)
        nextGrid
  else
    Except.error "Either direction.x or direction.y must be 0"

/-- The `pluckBlocks(column) as Block[]` cast in `hasLost`: the nullable
entries are dropped; `hasLost` only reaches this after checking that no cell
is empty, where no entry is null. -/
def castBlocks (blocks : List (Option Block)) : List Block :=
  blocks.filterMap id

/-- `hasLost` from gridUtils.ts. -/
def hasLost (grid : Grid) : Bool :=
  if !(findEmptyCellPositions grid).isEmpty then false
  else if (List.range grid.size).any
      (fun x => (findBlockPairs 1 (castBlocks (pluckBlocks (getColumnAt (x : Int) grid)))).hasBlockPairs)
    then false
  else if (List.range grid.size).any
      (fun y => (findBlockPairs 1 (castBlocks (pluckBlocks (getRowAt (y : Int) grid)))).hasBlockPairs)
    then false
  else true

/-- `hasWon` from gridUtils.ts: folds `Math.max(maxBlockValue,
cell.block?.value ?? 0)` over all cells, then tests `maxBlockValue === 2048`. -/
def hasWon (grid : Grid) : Bool :=
  let maxBlockValue :=
    iterateCells grid
      (fun m cell _ => (max m (((cell.bind Cell.block).map Block.value).getD 0), true))
      0
  maxBlockValue == 2048

/-- The value shown at a position: `cell.block?.value ?? 0`. -/
def cellValue (grid : Grid) (position : Vector) : Nat :=
  (((getCellAt position grid).bind Cell.block).map Block.value).getD 0

/-- The test applied by the `findEmptyCellPositions` iterator at one
position (`cell.block === null`). -/
def cellIsEmpty (grid : Grid) (position : Vector) : Bool :=
  match getCellAt position grid with
  | some c => decide (c.block = none)
  | none => false

/-- A structurally sound grid: `size` rows of `size` cells, the shape every
grid built by the engine has. -/
def Grid.WellFormed (grid : Grid) : Prop :=
  grid.rows.length = grid.size ∧ ∀ row ∈ grid.rows, row.length = grid.size

/-- Some pair of adjacent positions of the block sequence carries equal
values. -/
def AdjPair (blocks : List Block) : Prop :=
  ∃ j b b', blocks.get? j = some b ∧ blocks.get? (j + 1) = some b' ∧ b.value = b'.value

/-- Shape of a group produced by `findBlockPairs`: a singleton drawn from
the line, or a pair of adjacent equal-valued blocks stored as
`[higher-index member, lower-index member]`. -/
def GroupOK (blocks : List Block) (p : List Block) : Prop :=
  (∃ x, p = [x] ∧ x ∈ blocks) ∨
  (∃ x y j, p = [x, y] ∧ blocks.get? j = some y ∧ blocks.get? (j + 1) = some x ∧
    x.value = y.value)

/-- The `nextPhaseMap` of `useBoxAnimationsCompleteCallback` (use2048.ts):
phases that expect an animation-completion signal and their successors. -/
def nextPhaseMap : Phase → Option Phase
  | Phase.INIT => some Phase.INPUT
  | Phase.ACTIVE => some Phase.TEST_WON
  | Phase.SPAWN => some Phase.TEST_GAME_OVER
  | _ => none

/-- Observable state of the animation-completion aggregator: the ref-held
counter, the number of `CLEAR_TRANSIENT_STATE` dispatches (phase advances)
fired so far, and the number of `Animation complete fired during unexpected
phase` errors thrown so far. -/
structure AggState where
  animationCompleteCount : Nat
  advances : Nat
  faults : Nat
deriving DecidableEq

/-- `totalCompleteCount`: the box count during ACTIVE, otherwise 1. -/
def totalCompleteCount (phase : Phase) (boxCount : Nat) : Nat :=
  if phase = Phase.ACTIVE then boxCount else 1

/-- One invocation of the callback returned by
`useBoxAnimationsCompleteCallback` (use2048.ts lines 153-181). -/
def handleBoxAnimationComplete (phase : Phase) (boxCount : Nat) (s : AggState) : AggState :=
  let total := totalCompleteCount phase boxCount
  let c := s.animationCompleteCount + 1
  if c = total then
    match nextPhaseMap phase with
    | some _ =>
      { animationCompleteCount := 0, advances := s.advances + 1, faults := s.faults }
    | none =>
      { animationCompleteCount := 0, advances := s.advances, faults := s.faults + 1 }
  else
    { s with animationCompleteCount := c }

/-- `n` completion signals delivered in sequence, starting from a zero
counter, while `phase` and `boxCount` stay fixed. -/
def runAnimationSignals (phase : Phase) (boxCount : Nat) : Nat → AggState
  | 0 => { animationCompleteCount := 0, advances := 0, faults := 0 }
  | n + 1 => handleBoxAnimationComplete phase boxCount (runAnimationSignals phase boxCount n)

/-- `randomIntInclusive` from utils.ts with `Math.random()` passed in as
`rand`; `Math.ceil`/`Math.floor` on the integer bounds are identities. -/
def randomIntInclusive (rand : ℚ) (lo hi : Int) : Int :=
  ⌊rand * ((hi - lo + 1 : Int) : ℚ) + ((lo : Int) : ℚ)⌋

/-- `arrayRandomItem` from utils.ts: `arr[randomIntInclusive(0, arr.length - 1)]`;
`none` models the `undefined` read off an empty array. -/
def arrayRandomItem (rand : ℚ) (arr : List α) : Option α :=
  listGet? arr (randomIntInclusive rand 0 ((arr.length : Int) - 1))

/-- The payload of an ADD_NEW_BLOCK dispatch; `position` is optional because
the SPAWN handler passes `arrayRandomItem`'s result straight through, which
is `undefined` on a full board. -/
structure AddNewBlockAction where
  position : Option Vector
  block : Block
deriving DecidableEq

/-- The SPAWN phase handler (use2048.ts lines 226-243): bail if a new cell
was already spawned, otherwise dispatch ADD_NEW_BLOCK at a random empty
position. `id` models the uuid of the freshly created block. -/
def spawnPhaseHandler (rand : ℚ) (id : Nat) (grid : Grid) : Option AddNewBlockAction :=
  if hasNewCell grid then none
  else
    some { position := arrayRandomItem rand (findEmptyCellPositions grid)
           block := makeNewBlock id 2 }

/-- The ADD_NEW_BLOCK case of the reducer (use2048.ts lines 68-76):
`setBlockAt(position, block, cloneGrid(grid))`. Reading `position.y` of an
`undefined` position throws, modelled as `Except.error`. -/
def applyAddNewBlock (action : AddNewBlockAction) (grid : Grid) : Except String Grid :=
  let nextGrid := cloneGrid grid
  match action.position with
  | none => Except.error "TypeError: cannot read properties of undefined"
  | some p => Except.ok (setBlockAt p (some action.block) nextGrid)

/-- Reference-level grid: rows hold references (store indices) to shared
cell objects, making the aliasing between a grid and its clone explicit. -/
structure GridObj where
  size : Nat
  rows : List (List Nat)
deriving DecidableEq

/-- `cloneGrid` at the reference level: fresh rows array, fresh row arrays
(`row.slice()`), but the same cell references inside them. -/
def cloneGridObj (grid : GridObj) : GridObj :=
  { size := grid.size, rows := grid.rows.map fun row => row }

/-- Dereference `grid.rows[position.y][position.x]` through the store of
cell objects. -/
def readCellObj (store : List Cell) (grid : GridObj) (position : Vector) : Option Cell :=
  ((listGet? grid.rows position.y).bind fun row => listGet? row position.x).bind
    fun r => listGet? store (r : Int)

/-- `setBlockAt` at the reference level:
`grid.rows[position.y][position.x].block = block` mutates the store entry
the grid points at, in place. -/
def setBlockAtObj (position : Vector) (block : Option Block) (grid : GridObj)
    (store : List Cell) : List Cell :=
  match (listGet? grid.rows position.y).bind fun row => listGet? row position.x with
  | none => store
  | some r => listModify store (r : Int) fun cell => { cell with block := block }

/-- The ADD_NEW_BLOCK transition at the reference level: clone, then
`setBlockAt` on the clone. Returns the new grid and the updated store. -/
def addNewBlockObj (position : Vector) (block : Block) (grid : GridObj)
    (store : List Cell) : GridObj × List Cell :=
  let nextGrid := cloneGridObj grid
  (nextGrid, setBlockAtObj position (some block) nextGrid store)

/-- A full 2×2 board with values `[[2,2],[4,8]]`: row 0 holds an adjacent
equal pair (so the game is not lost), but no column holds one (so a vertical
move leaves the board unchanged). -/
def fullBoard2 : Grid :=
  { size := 2
    rows := [
      [{ block := some ⟨0, 2, false⟩, mergedBlock := none },
       { block := some ⟨1, 2, false⟩, mergedBlock := none }],
      [{ block := some ⟨2, 4, false⟩, mergedBlock := none },
       { block := some ⟨3, 8, false⟩, mergedBlock := none }]] }

/-- Loop invariant of `findBlockPairs` for direction −1, after the steps
0 .. i−1 have run: the groups collected so far contain each block at most
once, and every collected block sits at a line position strictly before the
boundary — at most i−2, or exactly i−1 if it was consumed by a pair (and is
therefore in `pairedBlocks`). -/
def fbpInvNeg (bs : List Block) (i : Nat) (st : List (List Block) × List Block) : Prop :=
  st.1.flatten.Nodup ∧
  ∀ b ∈ st.1.flatten, ∃ j, bs.get? j = some b ∧ (j + 2 ≤ i ∨ (j + 1 = i ∧ b ∈ st.2))

/-- Loop invariant of `findBlockPairs` for direction 1 (the scan walks the
indices downward from the high end): every collected block sits at a
position at least `length − i + 1`, or exactly `length − i` if it was
consumed by a pair. -/
def fbpInvPos (bs : List Block) (i : Nat) (st : List (List Block) × List Block) : Prop :=
  st.1.flatten.Nodup ∧
  ∀ b ∈ st.1.flatten, ∃ j, bs.get? j = some b ∧
    (bs.length + 1 ≤ j + i ∨ (bs.length = j + i ∧ b ∈ st.2))


theorem listGet?_natCast (l : List α) (j : Nat) : listGet? l (j : Int) = l.get? j := by
  simp [listGet?]

theorem listGet?_eq_some_iff {l : List α} {i : Int} {a : α} :
    listGet? l i = some a ↔ 0 ≤ i ∧ l.get? i.toNat = some a := by
  unfold listGet?
  split
  · simp_all
  · simp_all

theorem listGet?_mem {l : List α} {i : Int} {a : α} (h : listGet? l i = some a) : a ∈ l := by
  rcases listGet?_eq_some_iff.mp h with ⟨-, h2⟩
  exact List.get?_mem h2

theorem jsMapIdx_get? (f : Nat → α → β) (l : List α) :
    ∀ (i k : Nat), (jsMapIdx f i l).get? k = (l.get? k).map (f (i + k)) := by
  induction l with
  | nil => intro i k; simp [jsMapIdx]
  | cons a l ih =>
    intro i k
    cases k with
    | zero => simp [jsMapIdx]
    | succ k =>
      simp only [jsMapIdx, List.get?_cons_succ, ih (i + 1) k]
      have : i + 1 + k = i + (k + 1) := by omega
      rw [this]

theorem fbpGo_zero (d : Int) (bs : List Block) (i : Nat) (st : List (List Block) × List Block) :
    fbpGo d bs i 0 st = st := rfl

theorem fbpGo_succ (d : Int) (bs : List Block) (i fuel : Nat)
    (st : List (List Block) × List Block) :
    fbpGo d bs i (fuel + 1) st = fbpGo d bs (i + 1) fuel (fbpStep d bs st i) := rfl

theorem fbpGo_add (d : Int) (bs : List Block) (a : Nat) :
    ∀ (b i : Nat) (st : List (List Block) × List Block),
      fbpGo d bs i (a + b) st = fbpGo d bs (i + a) b (fbpGo d bs i a st) := by
  induction a with
  | zero => intro b i st; simp [fbpGo_zero]
  | succ a ih =>
    intro b i st
    have h1 : a + 1 + b = a + b + 1 := by omega
    have h2 : i + 1 + a = i + (a + 1) := by omega
    rw [h1, fbpGo_succ, ih, h2, fbpGo_succ]

theorem fbpStep_pb_cases (d : Int) (bs : List Block)
    (st : List (List Block) × List Block) (i : Nat) :
    (fbpStep d bs st i).2 = st.2 ∨
      ∃ b lb, (fbpStep d bs st i).2 = st.2 ++ [b, lb] := by
  unfold fbpStep
  dsimp only
  repeat' split
  all_goals first
    | (left; rfl)
    | (right; exact ⟨_, _, rfl⟩)

theorem fbpGo_pb_ne_nil (d : Int) (bs : List Block) :
    ∀ (f i : Nat) (st : List (List Block) × List Block),
      st.2 ≠ [] → (fbpGo d bs i f st).2 ≠ [] := by
  intro f
  induction f with
  | zero => intro i st h; simpa [fbpGo_zero] using h
  | succ f ih =>
    intro i st h
    rw [fbpGo_succ]
    apply ih
    rcases fbpStep_pb_cases d bs st i with h1 | ⟨b, lb, h1⟩ <;> simp [h1, h]

theorem fbpStep_adj (d : Int) (bs : List Block)
    (st : List (List Block) × List Block) (i : Nat)
    (hd : d = 1 ∨ d = -1) (hne : (fbpStep d bs st i).2 ≠ st.2) : AdjPair bs := by
  unfold fbpStep at hne
  dsimp only at hne
  split at hne
  case h_1 => exact absurd rfl hne
  case h_2 lb heq1 =>
    split at hne
    case isTrue => exact absurd rfl hne
    case isFalse =>
      split at hne
      case h_2 => exact absurd rfl hne
      case h_1 b heq2 =>
        split at hne
        case isFalse => exact absurd rfl hne
        case isTrue hv =>
          clear hne
          rcases hd with hd | hd <;> subst hd <;> norm_num at heq1 heq2
          · rcases listGet?_eq_some_iff.mp heq2 with ⟨hge, hgb⟩
            rcases listGet?_eq_some_iff.mp heq1 with ⟨hge1, hgb1⟩
            refine ⟨((bs.length : Int) - i - 1).toNat, b, lb, hgb, ?_, hv⟩
            have harg : ((bs.length : Int) - i).toNat =
                ((bs.length : Int) - i - 1).toNat + 1 := by omega
            rw [← harg]
            exact hgb1
          · rcases listGet?_eq_some_iff.mp heq2 with ⟨hge, hgb⟩
            rcases listGet?_eq_some_iff.mp heq1 with ⟨hge1, hgb1⟩
            refine ⟨((i : Int) + -1).toNat, lb, b, hgb1, ?_, hv.symm⟩
            have harg : ((i : Int) + -1).toNat + 1 = ((i : Int)).toNat := by omega
            rw [harg]
            simpa using hgb

theorem fbpGo_pb_adj (d : Int) (bs : List Block) (hd : d = 1 ∨ d = -1) :
    ∀ (f i : Nat) (st : List (List Block) × List Block),
      (fbpGo d bs i f st).2 ≠ [] → st.2 ≠ [] ∨ AdjPair bs := by
  intro f
  induction f with
  | zero => intro i st h; left; simpa [fbpGo_zero] using h
  | succ f ih =>
    intro i st h
    rw [fbpGo_succ] at h
    rcases ih (i + 1) (fbpStep d bs st i) h with h1 | h1
    · by_cases heq : (fbpStep d bs st i).2 = st.2
      · left; rwa [heq] at h1
      · right; exact fbpStep_adj d bs st i hd heq
    · right; exact h1

theorem fbpStep_pos_pair_ne_nil (bs : List Block)
    (st : List (List Block) × List Block) (s j : Nat) (b b' : Block)
    (hidx : (bs.length : Int) - (s : Int) - 1 = (j : Int))
    (hb : bs.get? j = some b) (hb' : bs.get? (j + 1) = some b')
    (hv : b.value = b'.value) :
    (fbpStep 1 bs st s).2 ≠ [] := by
  have h0 : (if (1 : Int) = 1 then (bs.length : Int) - (s : Int) - 1 else (s : Int)) =
      ((bs.length : Int) - (s : Int) - 1) := rfl
  have hb1 : listGet? bs ((bs.length : Int) - (s : Int) - 1) = some b := by
    rw [hidx, listGet?_natCast]
    exact hb
  have hb2 : listGet? bs ((bs.length : Int) - (s : Int) - 1 + 1) = some b' := by
    have harg : (bs.length : Int) - (s : Int) - 1 + 1 = ((j + 1 : Nat) : Int) := by omega
    rw [harg, listGet?_natCast]
    exact hb'
  unfold fbpStep
  dsimp only
  rw [h0, hb2]
  dsimp only
  by_cases hmem : b' ∈ st.2
  · rw [if_pos hmem]
    exact List.ne_nil_of_mem hmem
  · rw [if_neg hmem, hb1]
    dsimp only
    rw [if_pos hv]
    simp

theorem findBlockPairs_pairs_iff (bs : List Block) :
    (findBlockPairs 1 bs).hasBlockPairs = true ↔ AdjPair bs := by
  unfold findBlockPairs
  dsimp only
  rw [Bool.not_eq_true', List.isEmpty_eq_false]
  constructor
  · intro h
    rcases fbpGo_pb_adj 1 bs (Or.inl rfl) (bs.length + 1) 0 ([], []) h with h1 | h1
    · exact absurd rfl h1
    · exact h1
  · rintro ⟨j, b, b', hb, hb', hv⟩
    have hjlt : j + 1 < bs.length := by
      rcases List.get?_eq_some.mp hb' with ⟨h, -⟩
      exact h
    have h1 : bs.length + 1 = (bs.length - 1 - j) + (bs.length - (bs.length - 1 - j) + 1) := by
      omega
    rw [h1, fbpGo_add, fbpGo_succ]
    apply fbpGo_pb_ne_nil
    apply fbpStep_pos_pair_ne_nil bs _ _ j b b' _ hb hb' hv
    omega

theorem findEmptyCellPositions_eq_filter (g : Grid) :
    findEmptyCellPositions g = (cellIterationOrder g.size).filter (cellIsEmpty g) := by
  unfold findEmptyCellPositions iterateCells
  suffices h : ∀ (ps : List Vector) (acc : List Vector),
      iterGo g
        (fun result cell position =>
          match cell with
          | some c => (if c.block = none then result ++ [position] else result, true)
          | none => (result, true))
        acc ps = acc ++ ps.filter (cellIsEmpty g) by
    simpa using h (cellIterationOrder g.size) []
  intro ps
  induction ps with
  | nil => intro acc; simp [iterGo]
  | cons p rest ih =>
    intro acc
    rcases hc : getCellAt p g with - | c
    · simp [iterGo, hc, ih, cellIsEmpty, List.filter_cons]
    · by_cases hb : c.block = none <;>
        simp [iterGo, hc, hb, ih, cellIsEmpty, List.filter_cons]

theorem mem_cellIterationOrder {n : Nat} {p : Vector} :
    p ∈ cellIterationOrder n ↔
      ∃ x, x < n ∧ ∃ y, y < n ∧ p = ⟨(x : Int), (y : Int)⟩ := by
  simp only [cellIterationOrder, List.mem_flatMap, List.mem_map, List.mem_range]
  aesop

theorem hasLost_of_empty_ne_nil {g : Grid} (h : findEmptyCellPositions g ≠ []) :
    hasLost g = false := by
  unfold hasLost
  have h1 : (findEmptyCellPositions g).isEmpty = false := by rwa [List.isEmpty_eq_false]
  rw [h1]
  simp

theorem hasLost_true_iff (g : Grid) :
    hasLost g = true ↔
      (findEmptyCellPositions g = [] ∧
       (∀ x, x < g.size →
         ¬ AdjPair (castBlocks (pluckBlocks (getColumnAt (x : Int) g)))) ∧
       (∀ y, y < g.size →
         ¬ AdjPair (castBlocks (pluckBlocks (getRowAt (y : Int) g))))) := by
  by_cases h1 : findEmptyCellPositions g = []
  · unfold hasLost
    have hE : (findEmptyCellPositions g).isEmpty = true := by rw [h1]; rfl
    rw [hE]
    simp only [Bool.not_true, Bool.false_eq_true, if_false]
    by_cases h2 : ∃ x, x < g.size ∧
        AdjPair (castBlocks (pluckBlocks (getColumnAt (x : Int) g)))
    · have hc : ((List.range g.size).any fun x =>
          (findBlockPairs 1 (castBlocks (pluckBlocks (getColumnAt (x : Int) g)))).hasBlockPairs) = true := by
        rw [List.any_eq_true]
        rcases h2 with ⟨x, hx, ha⟩
        exact ⟨x, List.mem_range.mpr hx, (findBlockPairs_pairs_iff _).mpr ha⟩
      rw [if_pos hc]
      simp only [Bool.false_eq_true, false_iff]
      rintro ⟨-, hall, -⟩
      rcases h2 with ⟨x, hx, ha⟩
      exact hall x hx ha
    · have hc : ¬ (((List.range g.size).any fun x =>
          (findBlockPairs 1 (castBlocks (pluckBlocks (getColumnAt (x : Int) g)))).hasBlockPairs) = true) := by
        rw [List.any_eq_true]
        rintro ⟨x, hx, hpred⟩
        exact h2 ⟨x, List.mem_range.mp hx, (findBlockPairs_pairs_iff _).mp hpred⟩
      rw [if_neg hc]
      by_cases h3 : ∃ y, y < g.size ∧
          AdjPair (castBlocks (pluckBlocks (getRowAt (y : Int) g)))
      · have hr : ((List.range g.size).any fun y =>
            (findBlockPairs 1 (castBlocks (pluckBlocks (getRowAt (y : Int) g)))).hasBlockPairs) = true := by
          rw [List.any_eq_true]
          rcases h3 with ⟨y, hy, ha⟩
          exact ⟨y, List.mem_range.mpr hy, (findBlockPairs_pairs_iff _).mpr ha⟩
        rw [if_pos hr]
        simp only [Bool.false_eq_true, false_iff]
        rintro ⟨-, -, hall⟩
        rcases h3 with ⟨y, hy, ha⟩
        exact hall y hy ha
      · have hr : ¬ (((List.range g.size).any fun y =>
            (findBlockPairs 1 (castBlocks (pluckBlocks (getRowAt (y : Int) g)))).hasBlockPairs) = true) := by
          rw [List.any_eq_true]
          rintro ⟨y, hy, hpred⟩
          exact h3 ⟨y, List.mem_range.mp hy, (findBlockPairs_pairs_iff _).mp hpred⟩
        rw [if_neg hr]
        simp only [true_iff]
        refine ⟨h1, ?_, ?_⟩
        · intro x hx ha
          exact h2 ⟨x, hx, ha⟩
        · intro y hy ha
          exact h3 ⟨y, hy, ha⟩
  · rw [hasLost_of_empty_ne_nil h1]
    simp only [Bool.false_eq_true, false_iff]
    rintro ⟨h, -⟩
    exact h1 h

/-- C2: for every (well-formed) grid, `hasLost` is false whenever some cell
is empty; and it is true exactly when every cell is full and no column and
no row contains an adjacent equal-value pair — equivalently (by
`findBlockPairs_pairs_iff`) when no line yields a pair under the pairing
scan. -/
theorem hasLost_spec (g : Grid) (hwf : g.WellFormed) :
    (∀ p c, getCellAt p g = some c → c.block = none → hasLost g = false) ∧
    (hasLost g = true ↔
      (findEmptyCellPositions g = [] ∧
       (∀ x, x < g.size →
         ¬ AdjPair (castBlocks (pluckBlocks (getColumnAt (x : Int) g)))) ∧
       (∀ y, y < g.size →
         ¬ AdjPair (castBlocks (pluckBlocks (getRowAt (y : Int) g)))))) := by
  constructor
  · intro p c hget hblock
    apply hasLost_of_empty_ne_nil
    rw [findEmptyCellPositions_eq_filter]
    have hsplit := Option.bind_eq_some.mp hget
    rcases hsplit with ⟨row, hrow, hcell⟩
    rcases listGet?_eq_some_iff.mp hrow with ⟨hy0, hrow'⟩
    rcases listGet?_eq_some_iff.mp hcell with ⟨hx0, hcell'⟩
    rcases List.get?_eq_some.mp hrow' with ⟨hylt, -⟩
    rcases List.get?_eq_some.mp hcell' with ⟨hxlt, -⟩
    have hrowlen : row.length = g.size := hwf.2 row (List.get?_mem hrow')
    have hpmem : p ∈ cellIterationOrder g.size := by
      apply mem_cellIterationOrder.mpr
      refine ⟨p.x.toNat, ?_, p.y.toNat, ?_, ?_⟩
      · rwa [hrowlen] at hxlt
      · rwa [hwf.1] at hylt
      · cases p with
        | mk px py =>
          simp only [Vector.mk.injEq]
          constructor <;> simp [Int.toNat_of_nonneg, hx0, hy0]
    have hpe : cellIsEmpty g p = true := by
      unfold cellIsEmpty
      rw [hget]
      simp [hblock]
    intro hnil
    have hmem := List.mem_filter.mpr ⟨hpmem, hpe⟩
    rw [hnil] at hmem
    exact absurd hmem (List.not_mem_nil p)
  · exact hasLost_true_iff g

/-- Witness for C2 at the concrete one-cell empty grid. -/
theorem hasLost_spec_witness :
    (∀ p c, getCellAt p (makeEmptyGrid 1) = some c → c.block = none →
      hasLost (makeEmptyGrid 1) = false) ∧
    (hasLost (makeEmptyGrid 1) = true ↔
      (findEmptyCellPositions (makeEmptyGrid 1) = [] ∧
       (∀ x, x < (makeEmptyGrid 1).size →
         ¬ AdjPair (castBlocks (pluckBlocks (getColumnAt (x : Int) (makeEmptyGrid 1))))) ∧
       (∀ y, y < (makeEmptyGrid 1).size →
         ¬ AdjPair (castBlocks (pluckBlocks (getRowAt (y : Int) (makeEmptyGrid 1))))))) :=
  hasLost_spec (makeEmptyGrid 1) ⟨by decide, by decide⟩

theorem iterGo_foldl (g : Grid) (F : σ → Option Cell → Vector → σ) :
    ∀ (ps : List Vector) (s : σ),
      iterGo g (fun s c p => (F s c p, true)) s ps =
        ps.foldl (fun s p => F s (getCellAt p g) p) s := by
  intro ps
  induction ps with
  | nil => intro s; rfl
  | cons p rest ih => intro s; simp [iterGo, ih]

theorem foldl_max_le (f : α → Nat) (c : Nat) :
    ∀ (l : List α) (m : Nat), m ≤ c → (∀ a ∈ l, f a ≤ c) →
      l.foldl (fun m a => max m (f a)) m ≤ c := by
  intro l
  induction l with
  | nil => intro m hm _; simpa using hm
  | cons a l ih =>
    intro m hm hall
    simp only [List.foldl_cons]
    exact ih _ (max_le hm (hall a (by simp))) fun b hb => hall b (by simp [hb])

theorem le_foldl_max_init (f : α → Nat) :
    ∀ (l : List α) (m : Nat), m ≤ l.foldl (fun m a => max m (f a)) m := by
  intro l
  induction l with
  | nil => intro m; simp
  | cons a l ih =>
    intro m
    simp only [List.foldl_cons]
    exact le_trans (le_max_left m (f a)) (ih (max m (f a)))

theorem le_foldl_max_mem (f : α → Nat) :
    ∀ (l : List α) (m : Nat) (a : α), a ∈ l →
      f a ≤ l.foldl (fun m a => max m (f a)) m := by
  intro l
  induction l with
  | nil => intro m a ha; exact absurd ha (List.not_mem_nil a)
  | cons b l ih =>
    intro m a ha
    simp only [List.foldl_cons]
    rcases List.mem_cons.mp ha with rfl | ha
    · exact le_trans (le_max_right m (f a)) (le_foldl_max_init f l _)
    · exact ih _ a ha

theorem foldl_max_attained (f : α → Nat) :
    ∀ (l : List α) (m : Nat),
      l.foldl (fun m a => max m (f a)) m = m ∨
        ∃ a ∈ l, l.foldl (fun m a => max m (f a)) m = f a := by
  intro l
  induction l with
  | nil => intro m; left; rfl
  | cons b l ih =>
    intro m
    simp only [List.foldl_cons]
    rcases ih (max m (f b)) with h | ⟨a, ha, h⟩
    · rcases max_cases m (f b) with ⟨hmx, -⟩ | ⟨hmx, -⟩
      · left; rw [h, hmx]
      · right; exact ⟨b, by simp, by rw [h, hmx]⟩
    · right; exact ⟨a, by simp [ha], h⟩

theorem foldl_max_eq_iff (f : α → Nat) (c : Nat) (hc : c ≠ 0) (l : List α) :
    l.foldl (fun m a => max m (f a)) 0 = c ↔
      ((∃ a ∈ l, f a = c) ∧ ∀ a ∈ l, f a ≤ c) := by
  constructor
  · intro h
    constructor
    · rcases foldl_max_attained f l 0 with h0 | ⟨a, ha, h0⟩
      · rw [h0] at h; exact absurd h.symm hc
      · exact ⟨a, ha, by rw [← h0, h]⟩
    · intro a ha
      rw [← h]
      exact le_foldl_max_mem f l 0 a ha
  · rintro ⟨⟨a, ha, hfa⟩, hall⟩
    refine le_antisymm (foldl_max_le f c l 0 (Nat.zero_le c) hall) ?_
    rw [← hfa]
    exact le_foldl_max_mem f l 0 a ha

/-- C7 counterexample: a 1×1 grid holding a 4096 block has a cell of value
at least 2048, yet `hasWon` is false — the code tests
`maxBlockValue === 2048`, not `≥ 2048`. -/
theorem hasWon_claim_counterexample :
    hasWon { size := 1
             rows := [[{ block := some ⟨0, 4096, false⟩, mergedBlock := none }]] } = false ∧
    2048 ≤ cellValue
      { size := 1
        rows := [[{ block := some ⟨0, 4096, false⟩, mergedBlock := none }]] } ⟨0, 0⟩ := by
  decide

/-- C7 amended: `hasWon` is true iff the maximum block value on the board is
exactly 2048 — some cell's value equals 2048 and no cell's value exceeds
2048 (empty cells count as 0). -/
theorem hasWon_spec (g : Grid) :
    hasWon g = true ↔
      ((∃ x, x < g.size ∧ ∃ y, y < g.size ∧ cellValue g ⟨(x : Int), (y : Int)⟩ = 2048) ∧
       (∀ x, x < g.size → ∀ y, y < g.size → cellValue g ⟨(x : Int), (y : Int)⟩ ≤ 2048)) := by
  unfold hasWon iterateCells
  rw [iterGo_foldl g (fun m cell _ => max m (((cell.bind Cell.block).map Block.value).getD 0))]
  rw [beq_iff_eq]
  have h := foldl_max_eq_iff (fun p => cellValue g p) 2048 (by norm_num)
    (cellIterationOrder g.size)
  simp only [cellValue] at h
  rw [h]
  constructor
  · rintro ⟨⟨p, hp, hpv⟩, hall⟩
    rcases mem_cellIterationOrder.mp hp with ⟨x, hx, y, hy, rfl⟩
    refine ⟨⟨x, hx, y, hy, hpv⟩, ?_⟩
    intro x hx y hy
    exact hall ⟨(x : Int), (y : Int)⟩ (mem_cellIterationOrder.mpr ⟨x, hx, y, hy, rfl⟩)
  · rintro ⟨⟨x, hx, y, hy, hv⟩, hall⟩
    refine ⟨⟨⟨(x : Int), (y : Int)⟩, mem_cellIterationOrder.mpr ⟨x, hx, y, hy, rfl⟩, hv⟩, ?_⟩
    intro p hp
    rcases mem_cellIterationOrder.mp hp with ⟨x, hx, y, hy, rfl⟩
    exact hall x hx y hy

/-- C9 (code bug): `iterateCells` promises row-major order in its comment,
but its outer loop runs over `x` (the column) and its inner loop over `y`
(the row), so `findEmptyCellPositions` lists positions ordered by column
first: on the empty 2×2 grid, position (x=0, y=1) — second row — comes
before (x=1, y=0) — first row. -/
theorem findEmptyCellPositions_column_major :
    findEmptyCellPositions (makeEmptyGrid 2) = [⟨0, 0⟩, ⟨0, 1⟩, ⟨1, 0⟩, ⟨1, 1⟩] ∧
    cellIterationOrder 2 = [⟨0, 0⟩, ⟨0, 1⟩, ⟨1, 0⟩, ⟨1, 1⟩] := by
  decide

/-- C6 counterexample: on the well-formed 1×1 grid, the access at x = 5,
y = 0 goes through an existing row (second conjunct) and `getCellAt` simply
returns `undefined` (`none`) — a silent out-of-range read, not a fatal
fault, and `size` is never consulted. -/
theorem getCellAt_claim_counterexample :
    getCellAt ⟨5, 0⟩ (makeEmptyGrid 1) = none ∧
    listGet? (makeEmptyGrid 1).rows 0 = some [makeEmptyCell] := by
  decide

/-- C6 amended: the grid accessors perform no bounds check against `size`:
for any well-formed grid, a position with y in range and x at or beyond
`size` makes `getCellAt` silently evaluate to `undefined` (`none`) instead
of signalling a fault. -/
theorem getCellAt_unchecked_spec (g : Grid) (hwf : g.WellFormed) (p : Vector)
    (hy0 : 0 ≤ p.y) (hy : p.y < (g.size : Int)) (hx : (g.size : Int) ≤ p.x) :
    getCellAt p g = none := by
  unfold getCellAt
  rcases hrow : listGet? g.rows p.y with - | row
  · simp
  · rcases listGet?_eq_some_iff.mp hrow with ⟨-, hr⟩
    have hrlen : row.length = g.size := hwf.2 row (List.get?_mem hr)
    have hnone : listGet? row p.x = none := by
      unfold listGet?
      have hx0 : 0 ≤ p.x := le_trans (Int.natCast_nonneg g.size) hx
      rw [if_pos hx0]
      apply List.get?_eq_none.mpr
      omega
    simp [hnone]

/-- Witness for C6 at the 1×1 grid and position (5, 0). -/
theorem getCellAt_unchecked_spec_witness :
    getCellAt ⟨5, 0⟩ (makeEmptyGrid 1) = none :=
  getCellAt_unchecked_spec (makeEmptyGrid 1) ⟨by decide, by decide⟩ ⟨5, 0⟩
    (by decide) (by decide) (by decide)

/-- C5 counterexample: the all-zero direction vector is not detected: it
passes the `direction.x === 0` test and resolves every column with direction
0, returning a grid — it even pairs the lone block with itself and doubles
it — instead of throwing the invalid-direction error. -/
theorem resolveCellsInDirection_zero_counterexample :
    resolveCellsInDirection ⟨0, 0⟩
      { size := 1, rows := [[{ block := some ⟨7, 2, false⟩, mergedBlock := none }]] } =
    Except.ok
      { size := 1
        rows := [[{ block := some ⟨7, 4, false⟩, mergedBlock := some ⟨7, 2, false⟩ }]] } := by
  rfl

/-- C5 amended: `resolveCellsInDirection` throws the invalid-direction error
exactly for direction vectors with both components nonzero; the both-zero
vector instead takes the `direction.x === 0` branch and returns a resolved
grid. -/
theorem resolveCellsInDirection_invalid_spec (direction : Vector) (g : Grid)
    (hx : direction.x ≠ 0) (hy : direction.y ≠ 0) :
    resolveCellsInDirection direction g =
      Except.error "Either direction.x or direction.y must be 0" := by
  unfold resolveCellsInDirection
  rw [if_neg hx, if_neg hy]

/-- Witness for C5 at direction (1, 1). -/
theorem resolveCellsInDirection_invalid_spec_witness :
    resolveCellsInDirection ⟨1, 1⟩ (makeEmptyGrid 1) =
      Except.error "Either direction.x or direction.y must be 0" :=
  resolveCellsInDirection_invalid_spec ⟨1, 1⟩ (makeEmptyGrid 1) (by decide) (by decide)

/-- C4 counterexample: in phase INIT the expected count is k = 1, and a
second signal arriving after the reset immediately fires a second phase
advance — the claim predicts one advance after k + 1 = 2 signals, the code
fires two. -/
theorem aggregator_claim_counterexample :
    totalCompleteCount Phase.INIT 3 = 1 ∧
    runAnimationSignals Phase.INIT 3 2 =
      { animationCompleteCount := 0, advances := 2, faults := 0 } := by
  decide

/-- C4 amended: for a phase that expects completion signals and
k = `totalCompleteCount phase boxCount` ≥ 1: the first k−1 signals fire no
advance, the k-th fires exactly one and resets the counter, and — only when
k ≥ 2 — a (k+1)-th signal fires no stray advance (for k = 1 it starts a new
round and fires again). -/
theorem aggregator_spec (phase : Phase) (boxCount : Nat)
    (hph : nextPhaseMap phase ≠ none) (hk : 1 ≤ totalCompleteCount phase boxCount) :
    (∀ j, j < totalCompleteCount phase boxCount →
      runAnimationSignals phase boxCount j =
        { animationCompleteCount := j, advances := 0, faults := 0 }) ∧
    runAnimationSignals phase boxCount (totalCompleteCount phase boxCount) =
      { animationCompleteCount := 0, advances := 1, faults := 0 } ∧
    (2 ≤ totalCompleteCount phase boxCount →
      runAnimationSignals phase boxCount (totalCompleteCount phase boxCount + 1) =
        { animationCompleteCount := 1, advances := 1, faults := 0 }) := by
  rcases hnp : nextPhaseMap phase with - | ph
  · exact absurd hnp hph
  have hfirst : ∀ j, j < totalCompleteCount phase boxCount →
      runAnimationSignals phase boxCount j =
        { animationCompleteCount := j, advances := 0, faults := 0 } := by
    intro j
    induction j with
    | zero => intro _; rfl
    | succ j ih =>
      intro hj
      have hj' : j < totalCompleteCount phase boxCount := by omega
      show handleBoxAnimationComplete phase boxCount
        (runAnimationSignals phase boxCount j) = _
      rw [ih hj']
      unfold handleBoxAnimationComplete
      dsimp only
      rw [if_neg (by omega : ¬ (j + 1 = totalCompleteCount phase boxCount))]
  have hkth : runAnimationSignals phase boxCount (totalCompleteCount phase boxCount) =
      { animationCompleteCount := 0, advances := 1, faults := 0 } := by
    have hsucc : totalCompleteCount phase boxCount =
        (totalCompleteCount phase boxCount - 1) + 1 := by omega
    rw [hsucc]
    show handleBoxAnimationComplete phase boxCount
      (runAnimationSignals phase boxCount (totalCompleteCount phase boxCount - 1)) = _
    rw [hfirst _ (by omega)]
    unfold handleBoxAnimationComplete
    dsimp only
    rw [if_pos (by omega : totalCompleteCount phase boxCount - 1 + 1 =
      totalCompleteCount phase boxCount), hnp]
  refine ⟨hfirst, hkth, ?_⟩
  intro h2
  show handleBoxAnimationComplete phase boxCount
    (runAnimationSignals phase boxCount (totalCompleteCount phase boxCount)) = _
  rw [hkth]
  unfold handleBoxAnimationComplete
  dsimp only
  rw [if_neg (by omega : ¬ (0 + 1 = totalCompleteCount phase boxCount))]

/-- Witness for C4 with phase ACTIVE and three visible boxes. -/
theorem aggregator_spec_witness :
    (∀ j, j < totalCompleteCount Phase.ACTIVE 3 →
      runAnimationSignals Phase.ACTIVE 3 j =
        { animationCompleteCount := j, advances := 0, faults := 0 }) ∧
    runAnimationSignals Phase.ACTIVE 3 (totalCompleteCount Phase.ACTIVE 3) =
      { animationCompleteCount := 0, advances := 1, faults := 0 } ∧
    (2 ≤ totalCompleteCount Phase.ACTIVE 3 →
      runAnimationSignals Phase.ACTIVE 3 (totalCompleteCount Phase.ACTIVE 3 + 1) =
        { animationCompleteCount := 1, advances := 1, faults := 0 }) :=
  aggregator_spec Phase.ACTIVE 3 (by decide) (by decide)

/-- C10: on the full, still-playable board `fullBoard2` an upward move
changes nothing (no column pair), the win test fails, no cell is marked new,
so the SPAWN phase handler runs: `findEmptyCellPositions` is empty,
`randomIntInclusive(0, -1)` is 0 for every random draw so `arrayRandomItem`
reads index 0 of the empty array and yields `undefined`, and the dispatched
ADD_NEW_BLOCK applies `setBlockAt` at an undefined position — a TypeError.
The SPAWN action is not total on full boards. -/
theorem spawn_on_full_board_spec :
    hasLost fullBoard2 = false ∧
    resolveCellsInDirection ⟨0, -1⟩ fullBoard2 = Except.ok fullBoard2 ∧
    hasWon fullBoard2 = false ∧
    hasNewCell fullBoard2 = false ∧
    findEmptyCellPositions fullBoard2 = [] ∧
    (∀ rand : ℚ, randomIntInclusive rand 0 (-1) = 0) ∧
    (∀ (rand : ℚ) (id : Nat),
      spawnPhaseHandler rand id fullBoard2 =
        some { position := none, block := makeNewBlock id 2 }) ∧
    (∀ b : Block,
      applyAddNewBlock { position := none, block := b } fullBoard2 =
        Except.error "TypeError: cannot read properties of undefined") := by
  have hrand : ∀ rand : ℚ, randomIntInclusive rand 0 (-1) = 0 := by
    intro rand
    unfold randomIntInclusive
    norm_num
  refine ⟨by decide, by rfl, by decide, by decide, by decide, hrand, ?_, fun b => rfl⟩
  intro rand id
  unfold spawnPhaseHandler
  rw [if_neg (by decide : ¬ hasNewCell fullBoard2 = true)]
  have hempty : findEmptyCellPositions fullBoard2 = [] := by decide
  rw [hempty]
  unfold arrayRandomItem
  have h0 : randomIntInclusive rand 0 ((([] : List Vector).length : Int) - 1) = 0 := by
    unfold randomIntInclusive
    norm_num
  rw [h0]
  rfl

/-- C8 (code bug): at the reference level, the single cell object of a 1×1
grid (store index 0) is shared between the grid and its clone, because
`cloneGrid` copies only the row containers. The ADD_NEW_BLOCK transition
(clone, then `setBlockAt` on the clone) mutates that shared cell's `block`
field in place, so reading the ORIGINAL grid after the transition shows the
spawned block: the pre-transition snapshot is not left unchanged. -/
theorem addNewBlock_mutates_shared_cell :
    readCellObj [makeEmptyCell] { size := 1, rows := [[0]] } ⟨0, 0⟩ =
      some { block := none, mergedBlock := none } ∧
    (addNewBlockObj ⟨0, 0⟩ (makeNewBlock 5 2) { size := 1, rows := [[0]] }
        [makeEmptyCell]).1 = cloneGridObj { size := 1, rows := [[0]] } ∧
    readCellObj
      (addNewBlockObj ⟨0, 0⟩ (makeNewBlock 5 2) { size := 1, rows := [[0]] }
        [makeEmptyCell]).2
      { size := 1, rows := [[0]] } ⟨0, 0⟩ =
      some { block := some (makeNewBlock 5 2), mergedBlock := none } := by
  decide

theorem mem_addToBlockPairs {d : Int} {p q : List Block} {bps : List (List Block)} :
    p ∈ addToBlockPairs d q bps ↔ p = q ∨ p ∈ bps := by
  unfold addToBlockPairs
  split <;> simp [or_comm]

theorem fbpStep_groups (d : Int) (bs : List Block) (hd : d = 1 ∨ d = -1)
    (st : List (List Block) × List Block) (i : Nat)
    (hst : ∀ p ∈ st.1, GroupOK bs p) :
    ∀ p ∈ (fbpStep d bs st i).1, GroupOK bs p := by
  intro p hp
  unfold fbpStep at hp
  dsimp only at hp
  split at hp
  case h_1 => exact hst p hp
  case h_2 lb hlb =>
    split at hp
    case isTrue => exact hst p hp
    case isFalse =>
      split at hp
      case h_2 =>
        rcases mem_addToBlockPairs.mp hp with rfl | hp'
        · exact Or.inl ⟨lb, rfl, listGet?_mem hlb⟩
        · exact hst p hp'
      case h_1 b hb =>
        split at hp
        case isFalse =>
          rcases mem_addToBlockPairs.mp hp with rfl | hp'
          · exact Or.inl ⟨lb, rfl, listGet?_mem hlb⟩
          · exact hst p hp'
        case isTrue hv =>
          rcases mem_addToBlockPairs.mp hp with rfl | hp'
          · rcases hd with hd1 | hd1 <;> subst hd1 <;> norm_num at hb hlb <;> right
            · rcases listGet?_eq_some_iff.mp hb with ⟨hge, hgb⟩
              rcases listGet?_eq_some_iff.mp hlb with ⟨hge1, hgb1⟩
              refine ⟨lb, b, ((bs.length : Int) - i - 1).toNat, rfl, hgb, ?_, hv.symm⟩
              have harg : ((bs.length : Int) - i).toNat =
                  ((bs.length : Int) - i - 1).toNat + 1 := by omega
              rw [← harg]
              exact hgb1
            · rcases listGet?_eq_some_iff.mp hb with ⟨hge, hgb⟩
              rcases listGet?_eq_some_iff.mp hlb with ⟨hge1, hgb1⟩
              refine ⟨b, lb, ((i : Int) + -1).toNat, rfl, hgb1, ?_, hv⟩
              have harg : ((i : Int) + -1).toNat + 1 = ((i : Int)).toNat := by omega
              rw [harg]
              simpa using hgb
          · exact hst p hp'

theorem fbpGo_groups (d : Int) (bs : List Block) (hd : d = 1 ∨ d = -1) :
    ∀ (f i : Nat) (st : List (List Block) × List Block),
      (∀ p ∈ st.1, GroupOK bs p) →
      ∀ p ∈ (fbpGo d bs i f st).1, GroupOK bs p := by
  intro f
  induction f with
  | zero => intro i st hst; simpa [fbpGo_zero] using hst
  | succ f ih =>
    intro i st hst
    rw [fbpGo_succ]
    exact ih (i + 1) (fbpStep d bs st i) (fbpStep_groups d bs hd st i hst)

theorem findBlockPairs_groups (d : Int) (bs : List Block) (hd : d = 1 ∨ d = -1) :
    ∀ p ∈ (findBlockPairs d bs).blockPairs, GroupOK bs p := by
  unfold findBlockPairs
  exact fbpGo_groups d bs hd (bs.length + 1) 0 ([], []) (by simp)

/-- C1 amended: for a transient-cleared line and direction ±1, every merged
cell produced by `resolveColumnOrRowInDirection` holds a block whose value
is the sum of the two paired blocks' values, whose id (and isNew flag) comes
from the pair member FARTHER from the destination edge, while `mergedBlock`
is the member nearer the destination edge; the two members are adjacent in
the compacted line (for direction 1 the destination is the high-index end,
so `m` sits one past `b`; for direction −1 it is the low-index end, so `m`
sits one before `b`). -/
theorem resolveColumnOrRowInDirection_merge_spec (direction : Int) (cells : List Cell)
    (hd : direction = 1 ∨ direction = -1)
    (hclear : ∀ cell ∈ cells, cell.mergedBlock = none)
    (k : Nat) (c : Cell) (m : Block)
    (hk : (resolveColumnOrRowInDirection direction cells).get? k = some c)
    (hm : c.mergedBlock = some m) :
    ∃ b j, c.block = some { id := b.id, value := b.value + m.value, isNew := b.isNew } ∧
      b.value = m.value ∧
      ((direction = 1 ∧ (lineBlocks cells).get? j = some b ∧
          (lineBlocks cells).get? (j + 1) = some m) ∨
       (direction = -1 ∧ (lineBlocks cells).get? j = some m ∧
          (lineBlocks cells).get? (j + 1) = some b)) := by
  by_cases hne : (lineBlocks cells).isEmpty = true
  case pos =>
    have hid : resolveColumnOrRowInDirection direction cells = cells := by
      unfold resolveColumnOrRowInDirection
      rw [if_pos hne]
    rw [hid] at hk
    rw [hclear c (List.get?_mem hk)] at hm
    exact absurd hm (by simp)
  case neg =>
    simp only [resolveColumnOrRowInDirection] at hk
    rw [if_neg hne, jsMapIdx_get?] at hk
    rcases Option.map_eq_some'.mp hk with ⟨cell0, hcell0, hc⟩
    split at hc
    case h_1 =>
      rw [← hc] at hm
      exact absurd hm (by simp)
    case h_2 p hp =>
      split at hc
      case isTrue =>
        rw [← hc] at hm
        exact absurd hm (by simp)
      case isFalse hlen =>
        split at hc
        case h_2 =>
          rw [← hc] at hm
          exact absurd hm (by simp)
        case h_3 =>
          rw [← hc] at hm
          exact absurd hm (by simp)
        case h_1 base toMerge rest hpair =>
          rw [← hc] at hm
          have hm' : toMerge = m := by simpa using hm
          subst hm'
          have hgo := findBlockPairs_groups direction (lineBlocks cells) hd p
            (listGet?_mem hp)
          rcases hgo with ⟨x, hx1, -⟩ | ⟨x, y, j, hxy, hy, hx, hvxy⟩
          · rw [hx1] at hlen
            exact absurd rfl hlen
          · subst hxy
            rcases hd with hd1 | hd1 <;> subst hd1
            · have hpair' : ([y, x] : List Block) = base :: toMerge :: rest := hpair
              injection hpair' with h1 h2
              injection h2 with h2 h3
              subst h1
              subst h2
              refine ⟨y, j, ?_, hvxy.symm, Or.inl ⟨rfl, hy, hx⟩⟩
              rw [← hc]
            · have hpair' : ([x, y] : List Block) = base :: toMerge :: rest := hpair
              injection hpair' with h1 h2
              injection h2 with h2 h3
              subst h1
              subst h2
              refine ⟨x, j, ?_, hvxy, Or.inr ⟨rfl, hy, hx⟩⟩
              rw [← hc]

/-- C1 counterexample: resolving the line [2 (id 0), 2 (id 1)] toward the
high-index edge (direction +1): the merged cell keeps id 0 — the pair member
farther from the destination edge — and stores the nearer member (id 1) as
`mergedBlock`, contradicting the claimed id inheritance from the nearer
member. -/
theorem resolveMerge_claim_counterexample :
    resolveColumnOrRowInDirection 1
      [{ block := some ⟨0, 2, false⟩, mergedBlock := none },
       { block := some ⟨1, 2, false⟩, mergedBlock := none }] =
    [{ block := none, mergedBlock := none },
     { block := some ⟨0, 4, false⟩, mergedBlock := some ⟨1, 2, false⟩ }] := by
  decide

/-- Witness for C1: the merged cell of the line [2 (id 0), 2 (id 1)]
resolved with direction +1. -/
theorem resolveColumnOrRowInDirection_merge_spec_witness :
    ∃ b j,
      ({ block := some ⟨0, 4, false⟩, mergedBlock := some ⟨1, 2, false⟩ } : Cell).block =
        some { id := b.id, value := b.value + Block.value ⟨1, 2, false⟩, isNew := b.isNew } ∧
      b.value = Block.value ⟨1, 2, false⟩ ∧
      (((1 : Int) = 1 ∧
          (lineBlocks
            [{ block := some ⟨0, 2, false⟩, mergedBlock := none },
             { block := some ⟨1, 2, false⟩, mergedBlock := none }]).get? j =
              some b ∧
          (lineBlocks
            [{ block := some ⟨0, 2, false⟩, mergedBlock := none },
             { block := some ⟨1, 2, false⟩, mergedBlock := none }]).get? (j + 1) =
              some ⟨1, 2, false⟩) ∨
       ((1 : Int) = -1 ∧
          (lineBlocks
            [{ block := some ⟨0, 2, false⟩, mergedBlock := none },
             { block := some ⟨1, 2, false⟩, mergedBlock := none }]).get? j =
              some ⟨1, 2, false⟩ ∧
          (lineBlocks
            [{ block := some ⟨0, 2, false⟩, mergedBlock := none },
             { block := some ⟨1, 2, false⟩, mergedBlock := none }]).get? (j + 1) =
              some b)) :=
  resolveColumnOrRowInDirection_merge_spec 1
    [{ block := some ⟨0, 2, false⟩, mergedBlock := none },
     { block := some ⟨1, 2, false⟩, mergedBlock := none }]
    (Or.inl rfl) (by decide) 1
    { block := some ⟨0, 4, false⟩, mergedBlock := some ⟨1, 2, false⟩ }
    ⟨1, 2, false⟩ (by decide) rfl

theorem nodup_get?_inj {l : List α} (h : l.Nodup) {i j : Nat} {a : α}
    (hi : l.get? i = some a) (hj : l.get? j = some a) : i = j := by
  rcases List.get?_eq_some.mp hi with ⟨hi', hgi⟩
  rcases List.get?_eq_some.mp hj with ⟨hj', hgj⟩
  have h2 : (⟨i, hi'⟩ : Fin l.length) = ⟨j, hj'⟩ :=
    h.get_inj_iff.mp (hgi.trans hgj.symm)
  exact congrArg Fin.val h2

theorem mem_flatten_addToBlockPairs {d : Int} {q : List Block}
    {bps : List (List Block)} {b : Block} :
    b ∈ (addToBlockPairs d q bps).flatten ↔ b ∈ q ∨ b ∈ bps.flatten := by
  unfold addToBlockPairs
  split <;> simp [or_comm]

theorem nodup_flatten_addToBlockPairs {d : Int} {q : List Block}
    {bps : List (List Block)} (hq : q.Nodup) (hb : bps.flatten.Nodup)
    (hdisj : ∀ b ∈ q, b ∉ bps.flatten) :
    (addToBlockPairs d q bps).flatten.Nodup := by
  unfold addToBlockPairs
  split
  · rw [List.flatten_cons, List.nodup_append]
    exact ⟨hq, hb, fun b hbq hbf => hdisj b hbq hbf⟩
  · rw [List.flatten_append]
    have hq' : ([q] : List (List Block)).flatten.Nodup := by simpa using hq
    rw [List.nodup_append]
    refine ⟨hb, hq', fun b hbf hbq => ?_⟩
    exact hdisj b (by simpa using hbq) hbf

theorem fbpStep_inv_neg (bs : List Block) (hnd : bs.Nodup)
    (st : List (List Block) × List Block) (i : Nat) (hinv : fbpInvNeg bs i st) :
    fbpInvNeg bs (i + 1) (fbpStep (-1) bs st i) := by
  obtain ⟨hnodup, hpos⟩ := hinv
  have hmono : fbpInvNeg bs (i + 1) st := by
    refine ⟨hnodup, fun b hb => ?_⟩
    rcases hpos b hb with ⟨j, hj, hcase | ⟨hje, -⟩⟩
    · exact ⟨j, hj, Or.inl (by omega)⟩
    · exact ⟨j, hj, Or.inl (by omega)⟩
  unfold fbpStep
  dsimp only
  split
  case h_1 => exact hmono
  case h_2 lb hlb =>
    split
    case isTrue => exact hmono
    case isFalse hmem =>
      have hlb' : listGet? bs ((i : Int) + -1) = some lb := hlb
      rcases listGet?_eq_some_iff.mp hlb' with ⟨hge1, hgl⟩
      have hlb_not_flat : lb ∉ st.1.flatten := by
        intro hin
        rcases hpos lb hin with ⟨j, hj, hcase | ⟨-, hmem2⟩⟩
        · have := nodup_get?_inj hnd hj hgl
          omega
        · exact hmem hmem2
      split
      case h_1 b hb =>
        have hb2 : listGet? bs ((i : Int)) = some b := hb
        rcases listGet?_eq_some_iff.mp hb2 with ⟨hge2, hgb⟩
        have hgb' : bs.get? i = some b := by simpa using hgb
        have hb_not_flat : b ∉ st.1.flatten := by
          intro hin
          rcases hpos b hin with ⟨j, hj, hcase | ⟨hje, -⟩⟩
          · have := nodup_get?_inj hnd hj hgb'
            omega
          · have := nodup_get?_inj hnd hj hgb'
            omega
        have hbne : b ≠ lb := by
          intro he
          have hgb2 : bs.get? i = some lb := he ▸ hgb'
          have := nodup_get?_inj hnd hgb2 hgl
          omega
        split
        case isTrue hv =>
          refine ⟨?_, ?_⟩ <;> dsimp only
          · apply nodup_flatten_addToBlockPairs
            · simp [hbne]
            · exact hnodup
            · intro x hx
              have hx' : x ∈ ([b, lb] : List Block) := hx
              rcases (by simpa using hx' : x = b ∨ x = lb) with rfl | rfl
              · exact hb_not_flat
              · exact hlb_not_flat
          · intro x hx
            rcases mem_flatten_addToBlockPairs.mp hx with hxq | hxf
            · have hxq' : x ∈ ([b, lb] : List Block) := hxq
              rcases (by simpa using hxq' : x = b ∨ x = lb) with rfl | rfl
              · exact ⟨i, hgb', Or.inr ⟨by omega, by simp⟩⟩
              · exact ⟨((i : Int) + -1).toNat, hgl, Or.inl (by omega)⟩
            · rcases hpos x hxf with ⟨j, hj, hcase | ⟨hje, -⟩⟩
              · exact ⟨j, hj, Or.inl (by omega)⟩
              · exact ⟨j, hj, Or.inl (by omega)⟩
        case isFalse =>
          refine ⟨?_, ?_⟩ <;> dsimp only
          · apply nodup_flatten_addToBlockPairs
            · simp
            · exact hnodup
            · intro x hx
              have hx' : x ∈ ([lb] : List Block) := hx
              rcases (by simpa using hx' : x = lb) with rfl
              exact hlb_not_flat
          · intro x hx
            rcases mem_flatten_addToBlockPairs.mp hx with hxq | hxf
            · have hxq' : x ∈ ([lb] : List Block) := hxq
              rcases (by simpa using hxq' : x = lb) with rfl
              exact ⟨((i : Int) + -1).toNat, hgl, Or.inl (by omega)⟩
            · rcases hpos x hxf with ⟨j, hj, hcase | ⟨hje, -⟩⟩
              · exact ⟨j, hj, Or.inl (by omega)⟩
              · exact ⟨j, hj, Or.inl (by omega)⟩
      case h_2 =>
        refine ⟨?_, ?_⟩ <;> dsimp only
        · apply nodup_flatten_addToBlockPairs
          · simp
          · exact hnodup
          · intro x hx
            have hx' : x ∈ ([lb] : List Block) := hx
            rcases (by simpa using hx' : x = lb) with rfl
            exact hlb_not_flat
        · intro x hx
          rcases mem_flatten_addToBlockPairs.mp hx with hxq | hxf
          · have hxq' : x ∈ ([lb] : List Block) := hxq
            rcases (by simpa using hxq' : x = lb) with rfl
            exact ⟨((i : Int) + -1).toNat, hgl, Or.inl (by omega)⟩
          · rcases hpos x hxf with ⟨j, hj, hcase | ⟨hje, -⟩⟩
            · exact ⟨j, hj, Or.inl (by omega)⟩
            · exact ⟨j, hj, Or.inl (by omega)⟩

theorem fbpStep_inv_pos (bs : List Block) (hnd : bs.Nodup)
    (st : List (List Block) × List Block) (i : Nat) (hinv : fbpInvPos bs i st) :
    fbpInvPos bs (i + 1) (fbpStep 1 bs st i) := by
  obtain ⟨hnodup, hpos⟩ := hinv
  have hmono : fbpInvPos bs (i + 1) st := by
    refine ⟨hnodup, fun b hb => ?_⟩
    rcases hpos b hb with ⟨j, hj, hcase | ⟨hje, -⟩⟩
    · exact ⟨j, hj, Or.inl (by omega)⟩
    · exact ⟨j, hj, Or.inl (by omega)⟩
  unfold fbpStep
  dsimp only
  split
  case h_1 => exact hmono
  case h_2 lb hlb =>
    split
    case isTrue => exact hmono
    case isFalse hmem =>
      have hlb' : listGet? bs ((bs.length : Int) - i - 1 + 1) = some lb := hlb
      rcases listGet?_eq_some_iff.mp hlb' with ⟨hge1, hgl⟩
      have hlb_not_flat : lb ∉ st.1.flatten := by
        intro hin
        rcases hpos lb hin with ⟨j, hj, hcase | ⟨-, hmem2⟩⟩
        · have := nodup_get?_inj hnd hj hgl
          omega
        · exact hmem hmem2
      split
      case h_1 b hb =>
        have hb2 : listGet? bs ((bs.length : Int) - i - 1) = some b := hb
        rcases listGet?_eq_some_iff.mp hb2 with ⟨hge2, hgb⟩
        have hb_not_flat : b ∉ st.1.flatten := by
          intro hin
          rcases hpos b hin with ⟨j, hj, hcase | ⟨hje, -⟩⟩
          · have := nodup_get?_inj hnd hj hgb
            omega
          · have := nodup_get?_inj hnd hj hgb
            omega
        have hbne : b ≠ lb := by
          intro he
          have hgb2 : bs.get? ((bs.length : Int) - i - 1).toNat = some lb := he ▸ hgb
          have := nodup_get?_inj hnd hgb2 hgl
          omega
        split
        case isTrue hv =>
          refine ⟨?_, ?_⟩ <;> dsimp only
          · apply nodup_flatten_addToBlockPairs
            · simp [Ne.symm hbne]
            · exact hnodup
            · intro x hx
              have hx' : x ∈ ([lb, b] : List Block) := hx
              rcases (by simpa using hx' : x = lb ∨ x = b) with rfl | rfl
              · exact hlb_not_flat
              · exact hb_not_flat
          · intro x hx
            rcases mem_flatten_addToBlockPairs.mp hx with hxq | hxf
            · have hxq' : x ∈ ([lb, b] : List Block) := hxq
              rcases (by simpa using hxq' : x = lb ∨ x = b) with rfl | rfl
              · exact ⟨((bs.length : Int) - i - 1 + 1).toNat, hgl, Or.inl (by omega)⟩
              · exact ⟨((bs.length : Int) - i - 1).toNat, hgb, Or.inr ⟨by omega, by simp⟩⟩
            · rcases hpos x hxf with ⟨j, hj, hcase | ⟨hje, -⟩⟩
              · exact ⟨j, hj, Or.inl (by omega)⟩
              · exact ⟨j, hj, Or.inl (by omega)⟩
        case isFalse =>
          refine ⟨?_, ?_⟩ <;> dsimp only
          · apply nodup_flatten_addToBlockPairs
            · simp
            · exact hnodup
            · intro x hx
              have hx' : x ∈ ([lb] : List Block) := hx
              rcases (by simpa using hx' : x = lb) with rfl
              exact hlb_not_flat
          · intro x hx
            rcases mem_flatten_addToBlockPairs.mp hx with hxq | hxf
            · have hxq' : x ∈ ([lb] : List Block) := hxq
              rcases (by simpa using hxq' : x = lb) with rfl
              exact ⟨((bs.length : Int) - i - 1 + 1).toNat, hgl, Or.inl (by omega)⟩
            · rcases hpos x hxf with ⟨j, hj, hcase | ⟨hje, -⟩⟩
              · exact ⟨j, hj, Or.inl (by omega)⟩
              · exact ⟨j, hj, Or.inl (by omega)⟩
      case h_2 =>
        refine ⟨?_, ?_⟩ <;> dsimp only
        · apply nodup_flatten_addToBlockPairs
          · simp
          · exact hnodup
          · intro x hx
            have hx' : x ∈ ([lb] : List Block) := hx
            rcases (by simpa using hx' : x = lb) with rfl
            exact hlb_not_flat
        · intro x hx
          rcases mem_flatten_addToBlockPairs.mp hx with hxq | hxf
          · have hxq' : x ∈ ([lb] : List Block) := hxq
            rcases (by simpa using hxq' : x = lb) with rfl
            exact ⟨((bs.length : Int) - i - 1 + 1).toNat, hgl, Or.inl (by omega)⟩
          · rcases hpos x hxf with ⟨j, hj, hcase | ⟨hje, -⟩⟩
            · exact ⟨j, hj, Or.inl (by omega)⟩
            · exact ⟨j, hj, Or.inl (by omega)⟩

theorem fbpGo_inv_neg (bs : List Block) (hnd : bs.Nodup) :
    ∀ (f i : Nat) (st : List (List Block) × List Block),
      fbpInvNeg bs i st → fbpInvNeg bs (i + f) (fbpGo (-1) bs i f st) := by
  intro f
  induction f with
  | zero => intro i st h; simpa [fbpGo_zero] using h
  | succ f ih =>
    intro i st h
    rw [fbpGo_succ]
    have := ih (i + 1) (fbpStep (-1) bs st i) (fbpStep_inv_neg bs hnd st i h)
    have harith : i + 1 + f = i + (f + 1) := by omega
    rwa [harith] at this

theorem fbpGo_inv_pos (bs : List Block) (hnd : bs.Nodup) :
    ∀ (f i : Nat) (st : List (List Block) × List Block),
      fbpInvPos bs i st → fbpInvPos bs (i + f) (fbpGo 1 bs i f st) := by
  intro f
  induction f with
  | zero => intro i st h; simpa [fbpGo_zero] using h
  | succ f ih =>
    intro i st h
    rw [fbpGo_succ]
    have := ih (i + 1) (fbpStep 1 bs st i) (fbpStep_inv_pos bs hnd st i h)
    have harith : i + 1 + f = i + (f + 1) := by omega
    rwa [harith] at this

/-- C3: in a single resolution no block occurs in more than one group — the
concatenation of all groups returned by `findBlockPairs` has no duplicates —
and every group has at most two members, so a run of three or more equal
adjacent values can never collapse into a triple merge. The `Nodup` input
hypothesis models the JavaScript reference identity of the distinct block
objects held by the cells. -/
theorem findBlockPairs_exactly_once (direction : Int) (blocks : List Block)
    (hd : direction = 1 ∨ direction = -1) (hnd : blocks.Nodup) :
    (findBlockPairs direction blocks).blockPairs.flatten.Nodup ∧
    ∀ p ∈ (findBlockPairs direction blocks).blockPairs, p.length ≤ 2 := by
  constructor
  · rcases hd with hd1 | hd1 <;> subst hd1
    · have h := fbpGo_inv_pos blocks hnd (blocks.length + 1) 0 ([], [])
        ⟨by simp, by simp⟩
      unfold findBlockPairs
      dsimp only
      exact h.1
    · have h := fbpGo_inv_neg blocks hnd (blocks.length + 1) 0 ([], [])
        ⟨by simp, by simp⟩
      unfold findBlockPairs
      dsimp only
      exact h.1
  · intro p hp
    have hgo := findBlockPairs_groups direction blocks hd p hp
    rcases hgo with ⟨x, rfl, -⟩ | ⟨x, y, j, rfl, -⟩
    · simp
    · simp

/-- Witness for C3 on the three-block run of equal values [2, 2, 2]. -/
theorem findBlockPairs_exactly_once_witness :
    (findBlockPairs 1
      [⟨0, 2, true⟩, ⟨1, 2, false⟩, ⟨2, 2, false⟩]).blockPairs.flatten.Nodup ∧
    ∀ p ∈ (findBlockPairs 1
      [⟨0, 2, true⟩, ⟨1, 2, false⟩, ⟨2, 2, false⟩]).blockPairs, p.length ≤ 2 :=
  findBlockPairs_exactly_once 1 [⟨0, 2, true⟩, ⟨1, 2, false⟩, ⟨2, 2, false⟩]
    (Or.inl rfl) (by decide)
